import Mathlib

/-!
Verification of the `commands-audio` package: shallow embedding of the
`audio-commit`, `audio-review` and `select-audio` commands and proofs of the
spec's claims about them.  Collaborators (audio capture, transcription, the
downstream `commit`/`review` commands, directory storage) are modelled as an
environment of oracle functions; each command becomes a pure function from
the environment and the invocation config to a result together with a trace
of collaborator calls.
-/

namespace CommandsAudio

/-! ## JavaScript string / path primitives -/

/-- JS truthiness of an optional string field: `undefined` and `""` are falsy. -/
def truthy : Option String → Bool
  | none => false
  | some s => s ≠ ""

/-- JS `a || b` for an optional string `a` and a string default `b`. -/
def jsOrOpt (a : Option String) (b : String) : String :=
  match a with
  | none => b
  | some s => if s = "" then b else s

/-- ASCII lowercase of one character (models `toLowerCase` on the ASCII range,
which is all the audio-extension comparison needs). -/
def lowerChar (c : Char) : Char :=
  if 'A' ≤ c ∧ c ≤ 'Z' then Char.ofNat (c.toNat + 32) else c

/-- ASCII lowercase of a string. -/
def lowerAscii (s : String) : String :=
  String.mk (s.toList.map lowerChar)

/-- Suffix of a character list after the last occurrence of `sep`
(the whole list when `sep` does not occur). -/
def afterLast (sep : Char) (cs : List Char) : List Char :=
  ((cs.reverse).takeWhile (fun c => c ≠ sep)).reverse

/-- Node `path.basename` for the already-normalized names this package joins:
the part after the last slash. -/
def strBasename (s : String) : String :=
  String.mk (afterLast '/' s.toList)

/-- Node `path.extname` on a basename character list: the substring from the
last dot, or empty when there is no dot or the only leading character is the
dot (`.bashrc` has no extension). -/
def extnameChars (bs : List Char) : List Char :=
  let tw := (bs.reverse).takeWhile (fun c => c ≠ '.')
  if tw.length = bs.length then []
  else if tw.length + 1 = bs.length then []
  else '.' :: tw.reverse

/-- Node `path.extname` of a listed entry name. -/
def extname (s : String) : String :=
  String.mk (extnameChars (afterLast '/' s.toList))

/-- Node `path.join` for the normalized segment inputs used here. -/
def pathJoin (dir name : String) : String :=
  dir ++ "/" ++ name

/-- Whether `p` occurs as a contiguous sublist of the second list. -/
def charsHasSub (p : List Char) : List Char → Bool
  | [] => p.isEmpty
  | c :: rest => p.isPrefixOf (c :: rest) || charsHasSub p rest

/-- JS `s.includes(pat)`. -/
def strHasSubstr (s pat : String) : Bool :=
  charsHasSub pat.toList s.toList

/-- JS `s.startsWith(p)`. -/
def strStarts (s p : String) : Bool :=
  p.toList.isPrefixOf s.toList

/-- Lexicographic comparison of character lists by code point, the order
JS `Array.prototype.sort()` applies to the strings compared here. -/
def charsLe : List Char → List Char → Bool
  | [], _ => true
  | _ :: _, [] => false
  | a :: as, b :: bs => if a = b then charsLe as bs else decide (a < b)

/-- The comparison JS default sort uses on the joined paths. -/
def strLeJs (a b : String) : Bool :=
  charsLe a.toList b.toList

/-- Whitespace for the purposes of `trim` (the ASCII whitespace the
transcripts at issue can contain). -/
def isJsSpace (c : Char) : Bool :=
  c = ' ' || c = '\t' || c = '\n' || c = '\r' || c = '\x0b' || c = '\x0c'

/-- JS `s.trim()`: strip leading and trailing whitespace. -/
def jsTrim (s : String) : String :=
  String.mk (((s.toList.dropWhile isJsSpace).reverse.dropWhile isJsSpace).reverse)

/-! ## Data model -/

/-- The `name` discriminator of the error values this package branches on:
the two cancellation classes from the shared library, and every other error. -/
inductive ErrName where
  | cancellationError
  | userCancellationError
  | genericError
deriving DecidableEq

/-- A thrown JS error, reduced to the fields the code inspects. -/
structure JsError where
  name : ErrName
  message : String
deriving DecidableEq

/-- `name` rendered as the class name, for `error.toString()`. -/
def errNameStr : ErrName → String
  | .cancellationError => "CancellationError"
  | .userCancellationError => "UserCancellationError"
  | .genericError => "Error"

/-- JS `Error.prototype.toString()`: name, plus `": " + message` when nonempty. -/
def errToString (e : JsError) : String :=
  if e.message = "" then errNameStr e.name else errNameStr e.name ++ ": " ++ e.message

/-- Result of the `processAudio` collaborator. -/
structure AcquisitionResult where
  cancelled : Bool
  audioFilePath : Option String
deriving DecidableEq

/-- Value returned by a successful `transcribeAudio` call: either a valid
shape (an object whose `text` is a string) or an invalid shape, which makes
the commit flow raise a `TypeError` (message carried here) and makes the
review flows raise their explicit validation error. -/
inductive TranscriptionOutcome where
  | valid (text : String)
  | invalidShape (message : String)
deriving DecidableEq

/-- The `audioCommit` options block of the invocation config. -/
structure AudioCommitOptions where
  file : Option String
  maxRecordingTime : Option Int
  archive : Option Bool
  context : Option String
deriving DecidableEq

/-- The downstream `commit` options block.  `extraField` stands for any
pre-existing field of this block outside the one the adapter sets. -/
structure CommitOptions where
  direction : Option String
  extraField : Option String
deriving DecidableEq

/-- The `audioReview` options block of the invocation config. -/
structure AudioReviewOptions where
  file : Option String
  directory : Option String
  maxRecordingTime : Option Int
  includeCommitHistory : Option Bool
  includeRecentDiffs : Option Bool
  includeReleaseNotes : Option Bool
  includeGithubIssues : Option Bool
  commitHistoryLimit : Option Int
  diffHistoryLimit : Option Int
  releaseNotesLimit : Option Int
  githubIssuesLimit : Option Int
  sendit : Option Bool
  context : Option String
deriving DecidableEq

/-- The downstream `review` options block.  `extraField` stands for any
pre-existing field of this block outside the mapped set. -/
structure ReviewOptions where
  note : Option String
  includeCommitHistory : Option Bool
  includeRecentDiffs : Option Bool
  includeReleaseNotes : Option Bool
  includeGithubIssues : Option Bool
  commitHistoryLimit : Option Int
  diffHistoryLimit : Option Int
  releaseNotesLimit : Option Int
  githubIssuesLimit : Option Int
  sendit : Option Bool
  context : Option String
  extraField : Option String
deriving DecidableEq

/-- The invocation config (`Config` from the core package), reduced to the
fields these commands read or rebuild.  `extraTop` stands for every other
top-level field carried along by the `{ ...runConfig }` spreads. -/
structure Config where
  dryRun : Option Bool
  debug : Option Bool
  outputDirectory : Option String
  audioCommit : Option AudioCommitOptions
  audioReview : Option AudioReviewOptions
  commit : Option CommitOptions
  review : Option ReviewOptions
  extraTop : Option String
deriving DecidableEq

/-- `runConfig.dryRun || false`. -/
def isDryRun (cfg : Config) : Bool :=
  match cfg.dryRun with
  | some b => b
  | none => false

/-- `runConfig.outputDirectory || 'output'`. -/
def outDirStr (cfg : Config) : String :=
  jsOrOpt cfg.outputDirectory "output"

def acFile (cfg : Config) : Option String := cfg.audioCommit.bind (fun o => o.file)
def acMax (cfg : Config) : Option Int := cfg.audioCommit.bind (fun o => o.maxRecordingTime)
def arFile (cfg : Config) : Option String := cfg.audioReview.bind (fun o => o.file)
def arMax (cfg : Config) : Option Int := cfg.audioReview.bind (fun o => o.maxRecordingTime)
def arDirectory (cfg : Config) : Option String := cfg.audioReview.bind (fun o => o.directory)

/-- Arguments handed to the `processAudio` collaborator. -/
structure ProcessAudioArgs where
  file : Option String
  maxRecordingTime : Option Int
  outputDirectory : String
  debug : Option Bool
deriving DecidableEq

/-- Trace of collaborator calls made by one command invocation. -/
structure Trace where
  processAudioCalls : Nat
  transcribeCalls : List String
  commitCalls : List Config
  reviewCalls : List Config
  timersCreated : Nat
  timerStops : Nat
deriving DecidableEq

def Trace.empty : Trace :=
  { processAudioCalls := 0, transcribeCalls := [], commitCalls := [], reviewCalls := [],
    timersCreated := 0, timerStops := 0 }

/-- Behaviour of all consumed collaborators for one invocation. -/
structure Env where
  processAudio : ProcessAudioArgs → Except JsError AcquisitionResult
  transcribeAudio : String → Except JsError TranscriptionOutcome
  executeCommit : Config → Except JsError String
  executeReview : Config → Except JsError String
  isDirectoryReadable : String → Except JsError Bool
  listFiles : String → Except JsError (List String)
  timestampedAudioFilename : String
  homedir : Except JsError String
  selectAndConfigureAudioDevice : String → Except JsError String

/-! ## select-audio (`execute` in the select-audio source) -/

/-- The wrapping applied by select-audio's catch block: home-directory errors
keep their marker, everything else is wrapped as a device-selection failure
using `error.message || error.toString()`. -/
def selectAudioWrap (e : JsError) : JsError :=
  if strHasSubstr e.message "Failed to determine home directory" then
    { name := .genericError, message := "Failed to determine home directory: " ++ e.message }
  else
    { name := .genericError
      message := "Audio device selection failed: " ++
        (if e.message = "" then errToString e else e.message) }

/-- `execute` of the select-audio command. -/
def selectAudioExecute (env : Env) (cfg : Config) : Except JsError String :=
  if isDryRun cfg then .ok "Audio device selection completed (dry run)"
  else
    match env.homedir with
    | .error e => .error (selectAudioWrap e)
    | .ok h =>
      match env.selectAndConfigureAudioDevice (pathJoin h ".unplayable") with
      | .ok r => .ok r
      | .error e => .error (selectAudioWrap e)

/-! ## Shared acquisition pieces -/

/-- Countdown timers created by one live acquisition: one exactly when no
file is supplied and `maxRecordingTime && maxRecordingTime > 0`. -/
def timerCount (fileOpt : Option String) (maxOpt : Option Int) : Nat :=
  if truthy fileOpt = false ∧ (match maxOpt with | some n => decide (0 < n) | none => false) = true
  then 1 else 0

/-- Step-2 resolution of the audio path handed to transcription: explicit
file, else the collaborator-reported path, else a generated timestamped
filename under the output directory. -/
def resolveAudioPath (fileOpt reported outputDirectoryOpt : Option String) (ts : String) : String :=
  if truthy fileOpt then fileOpt.getD ""
  else if truthy reported then reported.getD ""
  else pathJoin (jsOrOpt outputDirectoryOpt "output") ts

/-- The dry-run preview string of audio-commit. -/
def commitDryRunMsg : String :=
  "DRY RUN: Would process audio, transcribe it, and generate commit message with audio context"

/-- The dry-run preview string of single-file audio-review. -/
def reviewSingleDryRunMsg : String :=
  "DRY RUN: Would process audio, transcribe it, and perform review analysis with audio context"

/-- The dry-run preview string of batch audio-review. -/
def reviewBatchDryRunMsg : String :=
  "DRY RUN: Directory batch processing would be performed"

/-! ## audio-commit -/

def commitArgs (cfg : Config) : ProcessAudioArgs :=
  { file := acFile cfg, maxRecordingTime := acMax cfg
    outputDirectory := outDirStr cfg, debug := cfg.debug }

/-- The try block of `executeInternal` in audio-commit: acquisition, the
cancelled check, path resolution and transcription.  Returns the transcript
(or the propagating error) together with the transcription calls made.
An invalid transcription shape surfaces as the `TypeError` the untyped
field accesses raise. -/
def commitTryPhase (env : Env) (cfg : Config) : Except JsError String × List String :=
  match env.processAudio (commitArgs cfg) with
  | .error e => (.error e, [])
  | .ok r =>
    if r.cancelled then
      (.error { name := .userCancellationError, message := "Audio commit cancelled by user" }, [])
    else
      let p := resolveAudioPath (acFile cfg) r.audioFilePath cfg.outputDirectory
        env.timestampedAudioFilename
      match env.transcribeAudio p with
      | .error e => (.error e, [p])
      | .ok (.invalidShape m) => (.error { name := .genericError, message := m }, [p])
      | .ok (.valid t) => (.ok (if jsTrim t = "" then "" else t), [p])

/-- The catch block of audio-commit: user cancellations re-thrown, old
cancellation errors converted, everything else swallowed into an empty
transcript. -/
def commitCatch (e : JsError) : Except JsError String :=
  match e.name with
  | .userCancellationError => .error e
  | .cancellationError => .error { name := .userCancellationError, message := e.message }
  | .genericError => .ok ""

/-- The config handed to the downstream `commit` command:
`{ ...runConfig, commit: { ...runConfig.commit, direction: trim || existing || '' } }`. -/
def commitDelegConfig (cfg : Config) (audioContext : String) : Config :=
  let newCommit : CommitOptions :=
    { direction := some (jsOrOpt (some (jsTrim audioContext))
        (jsOrOpt (cfg.commit.bind (fun c => c.direction)) "")),
      extraField := cfg.commit.bind (fun c => c.extraField) }
  { cfg with commit := some newCommit }

/-- `execute` of audio-commit (the outer wrapper only logs and re-throws, so
it coincides with `executeInternal`). -/
def audioCommitExecute (env : Env) (cfg : Config) : Except JsError String × Trace :=
  if isDryRun cfg then
    (.ok commitDryRunMsg, Trace.empty)
  else
    let tc := timerCount (acFile cfg) (acMax cfg)
    let pr := commitTryPhase env cfg
    let base : Trace :=
      { Trace.empty with
        processAudioCalls := 1, timersCreated := tc, timerStops := tc,
        transcribeCalls := pr.2 }
    match (match pr.1 with | .ok s => .ok s | .error e => commitCatch e : Except JsError String) with
    | .error e => (.error e, base)
    | .ok audioContext =>
      let c := commitDelegConfig cfg audioContext
      (env.executeCommit c, { base with commitCalls := [c] })

/-! ## audio-review -/

def reviewArgs (cfg : Config) : ProcessAudioArgs :=
  { file := arFile cfg, maxRecordingTime := arMax cfg
    outputDirectory := outDirStr cfg, debug := cfg.debug }

/-- The try block of the single-file/recording path of audio-review; unlike
audio-commit it validates the transcription shape explicitly. -/
def reviewTryPhase (env : Env) (cfg : Config) : Except JsError String × List String :=
  match env.processAudio (reviewArgs cfg) with
  | .error e => (.error e, [])
  | .ok r =>
    if r.cancelled then
      (.error { name := .cancellationError, message := "Audio review cancelled by user" }, [])
    else
      let p := resolveAudioPath (arFile cfg) r.audioFilePath cfg.outputDirectory
        env.timestampedAudioFilename
      match env.transcribeAudio p with
      | .error e => (.error e, [p])
      | .ok (.invalidShape _) =>
        (.error { name := .genericError
                  message := "Invalid transcription result: missing or invalid text property" }, [p])
      | .ok (.valid t) => (.ok (if jsTrim t = "" then "" else t), [p])

/-- The catch block of single-file audio-review: only errors whose `name` is
`CancellationError` are re-thrown. -/
def reviewCatch (e : JsError) : Except JsError String :=
  if e.name = ErrName.cancellationError then .error e else .ok ""

/-- The mapped `review` block the adapter builds: the fixed audioReview
fields plus the given note.  The block is constructed fresh, so every field
outside the mapped set is absent. -/
def mappedReviewBlock (cfg : Config) (noteVal : String) : ReviewOptions :=
  { note := some noteVal
    includeCommitHistory := cfg.audioReview.bind (fun o => o.includeCommitHistory)
    includeRecentDiffs := cfg.audioReview.bind (fun o => o.includeRecentDiffs)
    includeReleaseNotes := cfg.audioReview.bind (fun o => o.includeReleaseNotes)
    includeGithubIssues := cfg.audioReview.bind (fun o => o.includeGithubIssues)
    commitHistoryLimit := cfg.audioReview.bind (fun o => o.commitHistoryLimit)
    diffHistoryLimit := cfg.audioReview.bind (fun o => o.diffHistoryLimit)
    releaseNotesLimit := cfg.audioReview.bind (fun o => o.releaseNotesLimit)
    githubIssuesLimit := cfg.audioReview.bind (fun o => o.githubIssuesLimit)
    sendit := cfg.audioReview.bind (fun o => o.sendit)
    context := cfg.audioReview.bind (fun o => o.context)
    extraField := none }

/-- Config handed to the downstream `review` command by the single-file path:
`note: audioContext.trim() || runConfig.review?.note || ''`. -/
def reviewDelegConfig (cfg : Config) (audioContext : String) : Config :=
  { cfg with review := some (mappedReviewBlock cfg
      (jsOrOpt (some (jsTrim audioContext)) (jsOrOpt (cfg.review.bind (fun r => r.note)) ""))) }

/-- The fixed audio-extension allow-list. -/
def AUDIO_EXTENSIONS : List String :=
  [".wav", ".mp3", ".m4a", ".aac", ".flac", ".ogg", ".wma"]

/-- Whether a listed entry passes the allow-list filter. -/
def audioExtOk (name : String) : Bool :=
  AUDIO_EXTENSIONS.contains (lowerAscii (extname name))

/-- `discoverAudioFiles`: readability check, allow-list filter, join with the
directory, lexicographic sort. -/
def discoverAudioFiles (env : Env) (directory : String) : Except JsError (List String) :=
  match env.isDirectoryReadable directory with
  | .error e => .error e
  | .ok false => .error { name := .genericError, message := "Directory not readable: " ++ directory }
  | .ok true =>
    match env.listFiles directory with
    | .error e => .error e
    | .ok names =>
      .ok (List.insertionSort (fun a b => strLeJs a b = true)
        ((names.filter audioExtOk).map (pathJoin directory)))

/-- Per-file failure string produced by `processSingleAudioFile`'s catch. -/
def perFileFailure (f message : String) : String :=
  "Failed to process " ++ strBasename f ++ ": " ++ message

/-- Config handed to `review` by the batch per-file path: a fresh mapped
block whose note is a header naming the file plus the transcript. -/
def batchDelegConfig (cfg : Config) (f t : String) : Config :=
  { cfg with review := some (mappedReviewBlock cfg
      ("Audio Review from " ++ strBasename f ++ ":\n\n" ++ jsTrim t)) }

/-- `processSingleAudioFile`: transcribe the file directly, validate, skip
delegation on a blank transcript, and catch every failure (of any kind) as a
per-file failure string. -/
def processSingleAudioFile (env : Env) (cfg : Config) (f : String) : String × Trace :=
  let base : Trace := { Trace.empty with transcribeCalls := [f] }
  match env.transcribeAudio f with
  | .error e => (perFileFailure f e.message, base)
  | .ok (.invalidShape _) =>
    (perFileFailure f "Invalid transcription result: missing or invalid text property", base)
  | .ok (.valid t) =>
    if jsTrim t = "" then ("", base)
    else
      let c := batchDelegConfig cfg f t
      match env.executeReview c with
      | .ok r => (r, { base with reviewCalls := [c] })
      | .error e => (perFileFailure f e.message, { base with reviewCalls := [c] })

/-- One labeled section of the aggregate batch report. -/
def batchSection (env : Env) (cfg : Config) (f : String) : String :=
  "File: " ++ strBasename f ++ "\n" ++ (processSingleAudioFile env cfg f).1

/-- The combined batch report: header with the file count, then one section
per discovered file in discovery order, separated by rules. -/
def batchCombined (env : Env) (cfg : Config) (files : List String) : String :=
  "Batch Audio Review Results (" ++ toString files.length ++ " files):\n\n" ++
    String.intercalate "\n\n---\n\n" (files.map (batchSection env cfg))

/-- The directory batch branch of audio-review's `execute`. -/
def reviewBatch (env : Env) (cfg : Config) (directory : String) : Except JsError String × Trace :=
  if isDryRun cfg then
    (.ok reviewBatchDryRunMsg, Trace.empty)
  else
    match discoverAudioFiles env directory with
    | .error e => (.error e, Trace.empty)
    | .ok files =>
      if files.isEmpty then (.ok "No audio files found to process", Trace.empty)
      else
        (.ok (batchCombined env cfg files),
          { Trace.empty with
            transcribeCalls :=
              (files.map (fun f => (processSingleAudioFile env cfg f).2.transcribeCalls)).flatten
            reviewCalls :=
              (files.map (fun f => (processSingleAudioFile env cfg f).2.reviewCalls)).flatten })

/-- `execute` of audio-review: the directory branch first, then the dry-run
preview, then the single-file/recording pipeline. -/
def audioReviewExecute (env : Env) (cfg : Config) : Except JsError String × Trace :=
  if truthy (arDirectory cfg) then reviewBatch env cfg ((arDirectory cfg).getD "")
  else if isDryRun cfg then
    (.ok reviewSingleDryRunMsg, Trace.empty)
  else
    let tc := timerCount (arFile cfg) (arMax cfg)
    let pr := reviewTryPhase env cfg
    let base : Trace :=
      { Trace.empty with
        processAudioCalls := 1, timersCreated := tc, timerStops := tc,
        transcribeCalls := pr.2 }
    match (match pr.1 with | .ok s => .ok s | .error e => reviewCatch e : Except JsError String) with
    | .error e => (.error e, base)
    | .ok audioContext =>
      let c := reviewDelegConfig cfg audioContext
      (env.executeReview c, { base with reviewCalls := [c] })

/-! ## Spec model for the batch refinement claim -/

/-- The per-file batch pipeline as the spec's words describe it (for the
refinement claim): run single-file steps 2 to 6 for the discovered file —
acquisition invoked for the file, transcription on the resolved audio path,
delegation with the accumulated transcript (possibly empty, with the
single-file note fallback) — wrapped so any failure, including cancellation,
becomes a per-file failure outcome. -/
def specBatchProcessFile (env : Env) (cfg : Config) (f : String) : String × Trace :=
  let args : ProcessAudioArgs :=
    { file := some f, maxRecordingTime := arMax cfg,
      outputDirectory := outDirStr cfg, debug := cfg.debug }
  let paTrace : Trace := { Trace.empty with processAudioCalls := 1 }
  let delegate := fun (transcript : String) (tr : Trace) =>
    let c := reviewDelegConfig cfg transcript
    match env.executeReview c with
    | .ok r => (r, { tr with reviewCalls := [c] })
    | .error e => (perFileFailure f e.message, { tr with reviewCalls := [c] })
  match env.processAudio args with
  | .error e =>
    if e.name = ErrName.cancellationError then (perFileFailure f e.message, paTrace)
    else delegate "" paTrace
  | .ok r =>
    if r.cancelled then (perFileFailure f "Audio review cancelled by user", paTrace)
    else
      let p := resolveAudioPath (some f) r.audioFilePath cfg.outputDirectory
        env.timestampedAudioFilename
      let tTrace : Trace := { paTrace with transcribeCalls := [p] }
      match env.transcribeAudio p with
      | .error e =>
        if e.name = ErrName.cancellationError then (perFileFailure f e.message, tTrace)
        else delegate "" tTrace
      | .ok (.invalidShape _) => delegate "" tTrace
      | .ok (.valid t) => delegate (if jsTrim t = "" then "" else t) tTrace

/-! ## Concrete fixtures used by witnesses and counterexamples -/

def arBase : AudioReviewOptions :=
  { file := some "/a.wav", directory := none, maxRecordingTime := none,
    includeCommitHistory := none, includeRecentDiffs := none,
    includeReleaseNotes := none, includeGithubIssues := none,
    commitHistoryLimit := none, diffHistoryLimit := none,
    releaseNotesLimit := none, githubIssuesLimit := none,
    sendit := none, context := none }

def cfgBase : Config :=
  { dryRun := some false, debug := none, outputDirectory := none,
    audioCommit := some
      { file := some "/a.wav", maxRecordingTime := none, archive := none, context := none },
    audioReview := some arBase,
    commit := none, review := none, extraTop := some "top" }

/-- Environment whose acquisition and transcription behaviours are the two
arguments and whose other collaborators answer fixed values. -/
def envWith (pa : Except JsError AcquisitionResult)
    (tr : Except JsError TranscriptionOutcome) : Env :=
  { processAudio := fun _ => pa,
    transcribeAudio := fun _ => tr,
    executeCommit := fun _ => .ok "COMMIT",
    executeReview := fun _ => .ok "REVIEW",
    isDirectoryReadable := fun _ => .ok true,
    listFiles := fun _ => .ok ["b.wav", "a.mp3", "notes.txt"],
    timestampedAudioFilename := "ts.wav",
    homedir := .ok "/home/u",
    selectAndConfigureAudioDevice := fun _ => .ok "Device configured" }

def envOk : Env :=
  envWith (.ok { cancelled := false, audioFilePath := some "/rec.wav" }) (.ok (.valid "hello"))

def envAcqFail : Env :=
  envWith (.error { name := .genericError, message := "boom" }) (.ok (.valid "hello"))

def envCancelled : Env :=
  envWith (.ok { cancelled := true, audioFilePath := none }) (.ok (.valid "hello"))

def envSelFail : Env :=
  { envOk with selectAndConfigureAudioDevice :=
      fun _ => .error { name := .genericError, message := "boom" } }

def cfgDry : Config := { cfgBase with dryRun := some true }

def cfgBatch : Config :=
  { cfgBase with audioReview := some { arBase with directory := some "/recs" } }

def reviewPre : ReviewOptions :=
  { note := some "old note",
    includeCommitHistory := some false, includeRecentDiffs := none,
    includeReleaseNotes := none, includeGithubIssues := none,
    commitHistoryLimit := none, diffHistoryLimit := none,
    releaseNotesLimit := none, githubIssuesLimit := none,
    sendit := none, context := none, extraField := some "keep" }

def cfgPreexisting : Config :=
  { cfgBase with
    commit := some { direction := some "old direction", extraField := some "keep" },
    review := some reviewPre }

/-! ## Helper lemmas -/

theorem strStarts_append (a b : String) : strStarts (a ++ b) a = true := by
  rw [strStarts, show (a ++ b).toList = a.toList ++ b.toList by simp [String.toList],
    List.isPrefixOf_iff_prefix]
  exact List.prefix_append _ _

theorem strStarts_self (a : String) : strStarts a a = true := by
  rw [strStarts, List.isPrefixOf_iff_prefix]

theorem processSingleAudioFile_transcribeCalls (env : Env) (cfg : Config) (f : String) :
    (processSingleAudioFile env cfg f).2.transcribeCalls = [f] := by
  unfold processSingleAudioFile
  rcases env.transcribeAudio f with e | o
  · rfl
  · rcases o with t | m
    · by_cases ht : jsTrim t = ""
      · simp [ht]
      · simp only [ht, if_false]
        split <;> rfl
    · rfl

theorem batch_transcribeCalls_flatten (env : Env) (cfg : Config) (files : List String) :
    (files.map (fun f => (processSingleAudioFile env cfg f).2.transcribeCalls)).flatten = files := by
  induction files with
  | nil => rfl
  | cons a t ih =>
    rw [List.map_cons, List.flatten_cons, processSingleAudioFile_transcribeCalls, ih]
    rfl

theorem charsLe_total (as : List Char) : ∀ bs, charsLe as bs = true ∨ charsLe bs as = true := by
  induction as with
  | nil => intro bs; left; rfl
  | cons a as ih =>
    intro bs
    cases bs with
    | nil => right; rfl
    | cons b bs =>
      by_cases hab : a = b
      · subst hab
        rcases ih bs with h | h
        · left
          simpa [charsLe] using h
        · right
          simpa [charsLe] using h
      · rcases lt_trichotomy a b with h | h | h
        · left
          simp [charsLe, hab, h]
        · exact absurd h hab
        · right
          have hba : b ≠ a := ne_of_lt h
          simp [charsLe, hba, h]

theorem charsLe_trans :
    ∀ (as bs cs : List Char), charsLe as bs = true → charsLe bs cs = true →
      charsLe as cs = true := by
  intro as
  induction as with
  | nil => intro bs cs h1 h2; rfl
  | cons a as ih =>
    intro bs cs h1 h2
    cases bs with
    | nil => simp [charsLe] at h1
    | cons b bs =>
      cases cs with
      | nil => simp [charsLe] at h2
      | cons c cs =>
        by_cases hab : a = b
        · subst hab
          by_cases hac : a = c
          · subst hac
            simp only [charsLe, if_pos rfl] at h1 h2 ⊢
            exact ih bs cs h1 h2
          · simp only [charsLe, if_neg hac] at h2 ⊢
            exact h2
        · by_cases hbc : b = c
          · subst hbc
            simp only [charsLe, if_neg hab] at h1 ⊢
            exact h1
          · simp only [charsLe, if_neg hab, decide_eq_true_eq] at h1
            simp only [charsLe, if_neg hbc, decide_eq_true_eq] at h2
            have hac : a < c := lt_trans h1 h2
            have hne : a ≠ c := ne_of_lt hac
            simp [charsLe, hne, hac]

instance : IsTotal String (fun a b => strLeJs a b = true) :=
  ⟨fun a b => charsLe_total a.toList b.toList⟩

instance : IsTrans String (fun a b => strLeJs a b = true) :=
  ⟨fun a b c h1 h2 => charsLe_trans a.toList b.toList c.toList h1 h2⟩

/-! ## Claim theorems -/

/-- Claim C5: with `dryRun = true` neither command makes any acquisition,
transcription or delegation collaborator call (the trace is empty), the
returned string carries a DRY RUN marker, and the commit preview also
mentions transcription. -/
theorem dryRunMakesNoCollaboratorCalls (env : Env) (cfg : Config)
    (h : isDryRun cfg = true) :
    audioCommitExecute env cfg = (.ok commitDryRunMsg, Trace.empty) ∧
    strHasSubstr commitDryRunMsg "DRY RUN" = true ∧
    strHasSubstr commitDryRunMsg "transcribe" = true ∧
    audioReviewExecute env cfg =
      (.ok (if truthy (arDirectory cfg) then reviewBatchDryRunMsg else reviewSingleDryRunMsg),
        Trace.empty) ∧
    strHasSubstr reviewBatchDryRunMsg "DRY RUN" = true ∧
    strHasSubstr reviewSingleDryRunMsg "DRY RUN" = true := by
  refine ⟨by simp [audioCommitExecute, h], by decide, by decide, ?_, by decide, by decide⟩
  by_cases hd : truthy (arDirectory cfg) = true
  · simp [audioReviewExecute, hd, reviewBatch, h]
  · have hd2 : truthy (arDirectory cfg) = false := by
      cases hb : truthy (arDirectory cfg)
      · rfl
      · exact absurd hb hd
    simp [audioReviewExecute, hd2, h]

theorem dryRunMakesNoCollaboratorCalls_witness :
    isDryRun cfgDry = true ∧
    audioCommitExecute envOk cfgDry = (.ok commitDryRunMsg, Trace.empty) ∧
    audioReviewExecute envOk cfgDry =
      (.ok (if truthy (arDirectory cfgDry) then reviewBatchDryRunMsg
        else reviewSingleDryRunMsg), Trace.empty) :=
  ⟨rfl, (dryRunMakesNoCollaboratorCalls envOk cfgDry rfl).1,
    (dryRunMakesNoCollaboratorCalls envOk cfgDry rfl).2.2.2.1⟩

/-- Claim C6: in a live run, each command creates exactly one countdown
timer when no file is supplied and the configured duration is positive
(none otherwise), and the timer is stopped exactly once before the
acquisition phase returns, whatever the outcome of acquisition and
transcription. -/
theorem countdownTimerScopedPerAcquisition (env : Env) (cfg : Config)
    (hdry : isDryRun cfg = false) (hdir : truthy (arDirectory cfg) = false) :
    ((audioCommitExecute env cfg).2.timersCreated = timerCount (acFile cfg) (acMax cfg) ∧
     (audioCommitExecute env cfg).2.timerStops = (audioCommitExecute env cfg).2.timersCreated) ∧
    ((audioReviewExecute env cfg).2.timersCreated = timerCount (arFile cfg) (arMax cfg) ∧
     (audioReviewExecute env cfg).2.timerStops = (audioReviewExecute env cfg).2.timersCreated) := by
  constructor
  · unfold audioCommitExecute
    simp only [hdry, Bool.false_eq_true, if_false]
    split <;> simp
  · unfold audioReviewExecute
    simp only [hdir, hdry, Bool.false_eq_true, if_false]
    split <;> simp

theorem countdownTimerScopedPerAcquisition_witness :
    isDryRun cfgBase = false ∧ truthy (arDirectory cfgBase) = false ∧
    ((audioCommitExecute envCancelled cfgBase).2.timersCreated =
       timerCount (acFile cfgBase) (acMax cfgBase) ∧
     (audioCommitExecute envCancelled cfgBase).2.timerStops =
       (audioCommitExecute envCancelled cfgBase).2.timersCreated) ∧
    ((audioReviewExecute envCancelled cfgBase).2.timersCreated =
       timerCount (arFile cfgBase) (arMax cfgBase) ∧
     (audioReviewExecute envCancelled cfgBase).2.timerStops =
       (audioReviewExecute envCancelled cfgBase).2.timersCreated) :=
  ⟨rfl, rfl,
    (countdownTimerScopedPerAcquisition envCancelled cfgBase rfl rfl).1,
    (countdownTimerScopedPerAcquisition envCancelled cfgBase rfl rfl).2⟩

/-- Claim C10: when the device-selection collaborator raises in a live
select-audio run, the command re-raises an error: home-directory failures
keep their marker message, and every other failure is wrapped with the
device-selection-failed marker followed by the collaborator's message. -/
theorem selectAudioNeverSwallows (env : Env) (cfg : Config) (h : String) (e : JsError)
    (hdry : isDryRun cfg = false) (hh : env.homedir = .ok h)
    (hsel : env.selectAndConfigureAudioDevice (pathJoin h ".unplayable") = .error e) :
    selectAudioExecute env cfg = .error (selectAudioWrap e) ∧
    (selectAudioWrap e).name = ErrName.genericError ∧
    (strHasSubstr e.message "Failed to determine home directory" = true →
      strStarts (selectAudioWrap e).message "Failed to determine home directory: " = true) ∧
    (strHasSubstr e.message "Failed to determine home directory" = false →
      strStarts (selectAudioWrap e).message
        ("Audio device selection failed: " ++ e.message) = true) := by
  refine ⟨by simp [selectAudioExecute, hdry, hh, hsel], ?_, ?_, ?_⟩
  · unfold selectAudioWrap
    split <;> rfl
  · intro hc
    simp only [selectAudioWrap, hc, if_true]
    exact strStarts_append _ _
  · intro hc
    simp only [selectAudioWrap, hc, Bool.false_eq_true, if_false]
    by_cases hm : e.message = ""
    · have hemp : "Audio device selection failed: " ++ e.message =
          "Audio device selection failed: " := by
        rw [hm]
        simp
      rw [hemp]
      simp only [hm, if_true]
      exact strStarts_append _ _
    · simp only [hm, if_false]
      exact strStarts_self _

theorem selectAudioNeverSwallows_witness :
    isDryRun cfgBase = false ∧
    envSelFail.homedir = Except.ok "/home/u" ∧
    selectAudioExecute envSelFail cfgBase =
      .error (selectAudioWrap { name := .genericError, message := "boom" }) :=
  ⟨rfl, rfl,
    (selectAudioNeverSwallows envSelFail cfgBase "/home/u"
      { name := .genericError, message := "boom" } rfl rfl rfl).1⟩

/-- Claim C8: in live single-file/recording mode the path handed to
transcription is resolved with this priority: the explicit file option,
else the collaborator-reported path when present (truthy), else a generated
timestamped filename joined under the configured output directory
(defaulting to output). -/
theorem audioPathResolutionPriority (env : Env) (cfg : Config) (r : AcquisitionResult)
    (hdry : isDryRun cfg = false)
    (hacq : env.processAudio (commitArgs cfg) = .ok r) (hnc : r.cancelled = false) :
    (audioCommitExecute env cfg).2.transcribeCalls =
      [resolveAudioPath (acFile cfg) r.audioFilePath cfg.outputDirectory
        env.timestampedAudioFilename] ∧
    (∀ f, acFile cfg = some f → f ≠ "" →
      resolveAudioPath (acFile cfg) r.audioFilePath cfg.outputDirectory
        env.timestampedAudioFilename = f) ∧
    (truthy (acFile cfg) = false → ∀ p, r.audioFilePath = some p → p ≠ "" →
      resolveAudioPath (acFile cfg) r.audioFilePath cfg.outputDirectory
        env.timestampedAudioFilename = p) ∧
    (truthy (acFile cfg) = false → truthy r.audioFilePath = false →
      resolveAudioPath (acFile cfg) r.audioFilePath cfg.outputDirectory
        env.timestampedAudioFilename =
        pathJoin (jsOrOpt cfg.outputDirectory "output") env.timestampedAudioFilename) := by
  have hpr : (commitTryPhase env cfg).2 =
      [resolveAudioPath (acFile cfg) r.audioFilePath cfg.outputDirectory
        env.timestampedAudioFilename] := by
    unfold commitTryPhase
    rw [hacq]
    simp only [hnc, Bool.false_eq_true, if_false]
    rcases env.transcribeAudio (resolveAudioPath (acFile cfg) r.audioFilePath
      cfg.outputDirectory env.timestampedAudioFilename) with e | o
    · rfl
    · rcases o with t | m
      · rfl
      · rfl
  refine ⟨?_, ?_, ?_, ?_⟩
  · unfold audioCommitExecute
    simp only [hdry, Bool.false_eq_true, if_false]
    split <;> simp [hpr]
  · intro f hf hfne
    simp [resolveAudioPath, truthy, hf, hfne]
  · intro hnf p hp hpne
    unfold resolveAudioPath
    simp only [hnf, Bool.false_eq_true, if_false]
    rw [hp]
    simp [truthy, hpne]
  · intro hnf hnp
    simp [resolveAudioPath, hnf, hnp]

theorem audioPathResolutionPriority_witness :
    isDryRun cfgBase = false ∧
    envOk.processAudio (commitArgs cfgBase) =
      .ok { cancelled := false, audioFilePath := some "/rec.wav" } ∧
    (audioCommitExecute envOk cfgBase).2.transcribeCalls =
      [resolveAudioPath (acFile cfgBase) (some "/rec.wav") cfgBase.outputDirectory
        envOk.timestampedAudioFilename] :=
  ⟨rfl, rfl,
    (audioPathResolutionPriority envOk cfgBase
      { cancelled := false, audioFilePath := some "/rec.wav" } rfl rfl rfl).1⟩

/-- Claim C1: in live single-file/recording mode, any non-cancellation
error from acquisition or transcription (including an invalid transcription
shape) is swallowed; the downstream command is invoked exactly once with
the free-text field resolved to the pre-existing config value when set and
the empty string otherwise, and the call returns the downstream outcome. -/
theorem singleFileRecoverableFailureFailsOpen (env : Env) (cfg : Config)
    (e e2 : JsError) (ps ps2 : List String)
    (hdry : isDryRun cfg = false) (hdir : truthy (arDirectory cfg) = false)
    (hc : commitTryPhase env cfg = (.error e, ps)) (hcn : e.name = ErrName.genericError)
    (hr : reviewTryPhase env cfg = (.error e2, ps2)) (hrn : e2.name = ErrName.genericError) :
    audioCommitExecute env cfg =
      (env.executeCommit (commitDelegConfig cfg ""),
        { Trace.empty with
          processAudioCalls := 1,
          timersCreated := timerCount (acFile cfg) (acMax cfg),
          timerStops := timerCount (acFile cfg) (acMax cfg),
          transcribeCalls := ps,
          commitCalls := [commitDelegConfig cfg ""] }) ∧
    (commitDelegConfig cfg "").commit.bind (fun c => c.direction) =
      some (jsOrOpt (cfg.commit.bind (fun c => c.direction)) "") ∧
    audioReviewExecute env cfg =
      (env.executeReview (reviewDelegConfig cfg ""),
        { Trace.empty with
          processAudioCalls := 1,
          timersCreated := timerCount (arFile cfg) (arMax cfg),
          timerStops := timerCount (arFile cfg) (arMax cfg),
          transcribeCalls := ps2,
          reviewCalls := [reviewDelegConfig cfg ""] }) ∧
    (reviewDelegConfig cfg "").review.bind (fun r => r.note) =
      some (jsOrOpt (cfg.review.bind (fun r => r.note)) "") := by
  refine ⟨?_, ?_, ?_, ?_⟩
  · unfold audioCommitExecute
    simp only [hdry, Bool.false_eq_true, if_false]
    rw [hc]
    simp [commitCatch, hcn]
  · simp [commitDelegConfig, jsOrOpt, show jsTrim "" = "" from rfl]
  · unfold audioReviewExecute
    simp only [hdir, hdry, Bool.false_eq_true, if_false]
    rw [hr]
    simp [reviewCatch, hrn]
  · simp [reviewDelegConfig, mappedReviewBlock, jsOrOpt, show jsTrim "" = "" from rfl]

theorem singleFileRecoverableFailureFailsOpen_witness :
    commitTryPhase envAcqFail cfgBase =
      (.error { name := .genericError, message := "boom" }, []) ∧
    audioCommitExecute envAcqFail cfgBase =
      (envAcqFail.executeCommit (commitDelegConfig cfgBase ""),
        { Trace.empty with
          processAudioCalls := 1,
          timersCreated := timerCount (acFile cfgBase) (acMax cfgBase),
          timerStops := timerCount (acFile cfgBase) (acMax cfgBase),
          transcribeCalls := [],
          commitCalls := [commitDelegConfig cfgBase ""] }) :=
  ⟨rfl,
    (singleFileRecoverableFailureFailsOpen envAcqFail cfgBase
      { name := .genericError, message := "boom" }
      { name := .genericError, message := "boom" } [] []
      rfl rfl rfl rfl rfl rfl).1⟩

/-- Claim C2: in live single-file/recording mode, a cancellation — the
acquisition result reporting cancelled, or acquisition/transcription
raising the flow's distinguished cancellation error — makes the command
raise a cancellation error carrying the same message, and the downstream
command is never invoked on that path. -/
theorem singleFileCancellationAborts (env : Env) (cfg : Config)
    (e e2 : JsError) (ps ps2 : List String)
    (hdry : isDryRun cfg = false) (hdir : truthy (arDirectory cfg) = false)
    (hc : commitTryPhase env cfg = (.error e, ps)) (hcn : e.name ≠ ErrName.genericError)
    (hr : reviewTryPhase env cfg = (.error e2, ps2)) (hrn : e2.name = ErrName.cancellationError) :
    (audioCommitExecute env cfg).1 =
      .error { name := ErrName.userCancellationError, message := e.message } ∧
    (audioCommitExecute env cfg).2.commitCalls = [] ∧
    (audioReviewExecute env cfg).1 = .error e2 ∧
    (audioReviewExecute env cfg).2.reviewCalls = [] := by
  have hcommit : audioCommitExecute env cfg =
      (.error { name := ErrName.userCancellationError, message := e.message },
        { Trace.empty with
          processAudioCalls := 1,
          timersCreated := timerCount (acFile cfg) (acMax cfg),
          timerStops := timerCount (acFile cfg) (acMax cfg),
          transcribeCalls := ps }) := by
    unfold audioCommitExecute
    simp only [hdry, Bool.false_eq_true, if_false]
    rw [hc]
    obtain ⟨n, m⟩ := e
    cases n with
    | cancellationError => simp [commitCatch]
    | userCancellationError => simp [commitCatch]
    | genericError => exact absurd rfl hcn
  have hreview : audioReviewExecute env cfg =
      (.error e2,
        { Trace.empty with
          processAudioCalls := 1,
          timersCreated := timerCount (arFile cfg) (arMax cfg),
          timerStops := timerCount (arFile cfg) (arMax cfg),
          transcribeCalls := ps2 }) := by
    unfold audioReviewExecute
    simp only [hdir, hdry, Bool.false_eq_true, if_false]
    rw [hr]
    simp [reviewCatch, hrn]
  exact ⟨by rw [hcommit], by simp [hcommit, Trace.empty],
    by rw [hreview], by simp [hreview, Trace.empty]⟩

theorem singleFileCancellationAborts_witness :
    commitTryPhase envCancelled cfgBase =
      (.error { name := .userCancellationError, message := "Audio commit cancelled by user" },
        []) ∧
    (audioCommitExecute envCancelled cfgBase).1 =
      .error { name := .userCancellationError, message := "Audio commit cancelled by user" } ∧
    (audioCommitExecute envCancelled cfgBase).2.commitCalls = [] ∧
    (audioReviewExecute envCancelled cfgBase).1 =
      .error { name := .cancellationError, message := "Audio review cancelled by user" } ∧
    (audioReviewExecute envCancelled cfgBase).2.reviewCalls = [] :=
  ⟨rfl,
    singleFileCancellationAborts envCancelled cfgBase
      { name := .userCancellationError, message := "Audio commit cancelled by user" }
      { name := .cancellationError, message := "Audio review cancelled by user" } [] []
      rfl rfl rfl (by decide) rfl rfl⟩

/-- Claim C7: for a readable directory, discovery returns exactly the
listed entries whose extension is on the audio allow-list compared
case-insensitively, each as the directory-joined path, sorted
lexicographically. -/
theorem discoveryFiltersAndSorts (env : Env) (d : String) (names l : List String)
    (hr : env.isDirectoryReadable d = .ok true) (hl : env.listFiles d = .ok names)
    (hd : discoverAudioFiles env d = .ok l) :
    l.Perm ((names.filter audioExtOk).map (pathJoin d)) ∧
    List.Sorted (fun a b => strLeJs a b = true) l ∧
    (∀ p, p ∈ l ↔ ∃ n, n ∈ names ∧ audioExtOk n = true ∧ p = pathJoin d n) := by
  have hval : l = List.insertionSort (fun a b => strLeJs a b = true)
      ((names.filter audioExtOk).map (pathJoin d)) := by
    have : discoverAudioFiles env d = .ok (List.insertionSort (fun a b => strLeJs a b = true)
        ((names.filter audioExtOk).map (pathJoin d))) := by
      simp [discoverAudioFiles, hr, hl]
    rw [hd] at this
    exact Except.ok.inj this
  subst hval
  refine ⟨?_, ?_, ?_⟩
  · exact List.perm_insertionSort _ _
  · exact List.sorted_insertionSort _ _
  · intro p
    rw [(List.perm_insertionSort (fun a b => strLeJs a b = true) _).mem_iff]
    constructor
    · intro hp
      rcases List.mem_map.mp hp with ⟨n, hn, rfl⟩
      rcases List.mem_filter.mp hn with ⟨h1, h2⟩
      exact ⟨n, h1, h2, rfl⟩
    · rintro ⟨n, h1, h2, rfl⟩
      exact List.mem_map_of_mem _ (List.mem_filter.mpr ⟨h1, h2⟩)

theorem discoveryFiltersAndSorts_witness :
    envOk.isDirectoryReadable "/recs" = .ok true ∧
    envOk.listFiles "/recs" = .ok ["b.wav", "a.mp3", "notes.txt"] ∧
    discoverAudioFiles envOk "/recs" = .ok ["/recs/a.mp3", "/recs/b.wav"] ∧
    (["/recs/a.mp3", "/recs/b.wav"] : List String).Perm
      (((["b.wav", "a.mp3", "notes.txt"] :
        List String).filter audioExtOk).map (pathJoin "/recs")) ∧
    List.Sorted (fun a b => strLeJs a b = true) ["/recs/a.mp3", "/recs/b.wav"] :=
  ⟨rfl, rfl, rfl,
    (discoveryFiltersAndSorts envOk "/recs" ["b.wav", "a.mp3", "notes.txt"]
      ["/recs/a.mp3", "/recs/b.wav"] rfl rfl rfl).1,
    (discoveryFiltersAndSorts envOk "/recs" ["b.wav", "a.mp3", "notes.txt"]
      ["/recs/a.mp3", "/recs/b.wav"] rfl rfl rfl).2.1⟩

/-- Claim C3: in live batch mode every discovered file is processed even
when some fail (any failure, cancellation included, becomes that file's
failure outcome), and the aggregate result is one labeled section per
discovered file in discovery order under a header stating the file count. -/
theorem batchIsolatesFailures (env : Env) (cfg : Config) (d : String) (files : List String)
    (hdry : isDryRun cfg = false) (hdir : arDirectory cfg = some d) (hdne : d ≠ "")
    (hdisc : discoverAudioFiles env d = .ok files) (hne : files ≠ []) :
    (audioReviewExecute env cfg).1 = .ok (batchCombined env cfg files) ∧
    (audioReviewExecute env cfg).2.transcribeCalls = files ∧
    batchCombined env cfg files =
      "Batch Audio Review Results (" ++ toString files.length ++ " files):\n\n" ++
        String.intercalate "\n\n---\n\n" (files.map (batchSection env cfg)) ∧
    (files.map (batchSection env cfg)).length = files.length ∧
    (∀ f e0, env.transcribeAudio f = .error e0 →
      batchSection env cfg f =
        "File: " ++ strBasename f ++ "\n" ++ perFileFailure f e0.message) := by
  have hrun : audioReviewExecute env cfg = reviewBatch env cfg d := by
    unfold audioReviewExecute
    rw [hdir]
    simp [truthy, hdne]
  have hni : files.isEmpty = false := by
    cases files with
    | nil => exact absurd rfl hne
    | cons a t => rfl
  have hrb : reviewBatch env cfg d =
      (.ok (batchCombined env cfg files),
        { Trace.empty with
          transcribeCalls := (files.map
            (fun f => (processSingleAudioFile env cfg f).2.transcribeCalls)).flatten,
          reviewCalls := (files.map
            (fun f => (processSingleAudioFile env cfg f).2.reviewCalls)).flatten }) := by
    unfold reviewBatch
    simp only [hdry, Bool.false_eq_true, if_false, hdisc, hni]
  refine ⟨?_, ?_, rfl, List.length_map _ _, ?_⟩
  · rw [hrun, hrb]
  · rw [hrun, hrb]
    exact batch_transcribeCalls_flatten env cfg files
  · intro f e0 h
    unfold batchSection processSingleAudioFile
    rw [h]

theorem batchIsolatesFailures_witness :
    discoverAudioFiles envOk "/recs" = .ok ["/recs/a.mp3", "/recs/b.wav"] ∧
    (audioReviewExecute envOk cfgBatch).1 =
      .ok (batchCombined envOk cfgBatch ["/recs/a.mp3", "/recs/b.wav"]) :=
  ⟨rfl, (batchIsolatesFailures envOk cfgBatch "/recs" ["/recs/a.mp3", "/recs/b.wav"]
    rfl rfl (by decide) rfl (by decide)).1⟩

/-- Claim C4 counterexample: at a concrete input the batch per-file
pipeline is not the single-file steps-2-to-6 pipeline with failures caught —
the spec-described per-file run invokes acquisition once, the code's per-file
run never does. -/
theorem batchPerFileDiffersFromSpec :
    (processSingleAudioFile envOk cfgBase "/recs/a.mp3").2.processAudioCalls = 0 ∧
    (specBatchProcessFile envOk cfgBase "/recs/a.mp3").2.processAudioCalls = 1 ∧
    processSingleAudioFile envOk cfgBase "/recs/a.mp3" ≠
      specBatchProcessFile envOk cfgBase "/recs/a.mp3" := by
  refine ⟨rfl, rfl, fun h => ?_⟩
  have h2 : (processSingleAudioFile envOk cfgBase "/recs/a.mp3").2.processAudioCalls =
      (specBatchProcessFile envOk cfgBase "/recs/a.mp3").2.processAudioCalls := by rw [h]
  rw [show (processSingleAudioFile envOk cfgBase "/recs/a.mp3").2.processAudioCalls = 0
      from rfl,
    show (specBatchProcessFile envOk cfgBase "/recs/a.mp3").2.processAudioCalls = 1
      from rfl] at h2
  exact absurd h2 (by decide)

/-- Claim C4 amended: the batch per-file pipeline performs no acquisition
and transcribes the discovered path directly; on a successful transcription
it delegates exactly once — only when the transcript is non-blank, with the
note built as a header naming the file plus the trimmed transcript — and a
blank transcript produces an empty per-file outcome with no delegation. -/
theorem batchPerFileAmended (env : Env) (cfg : Config) (f t : String)
    (ht : env.transcribeAudio f = .ok (.valid t)) :
    (processSingleAudioFile env cfg f).2.processAudioCalls = 0 ∧
    (processSingleAudioFile env cfg f).2.timersCreated = 0 ∧
    (processSingleAudioFile env cfg f).2.transcribeCalls = [f] ∧
    (jsTrim t = "" →
      processSingleAudioFile env cfg f = ("", { Trace.empty with transcribeCalls := [f] })) ∧
    (jsTrim t ≠ "" →
      (processSingleAudioFile env cfg f).2.reviewCalls = [batchDelegConfig cfg f t] ∧
      (batchDelegConfig cfg f t).review.bind (fun r => r.note) =
        some ("Audio Review from " ++ strBasename f ++ ":\n\n" ++ jsTrim t)) := by
  have hpa : (processSingleAudioFile env cfg f).2.processAudioCalls = 0 := by
    unfold processSingleAudioFile
    rw [ht]
    by_cases htr : jsTrim t = ""
    · simp [htr, Trace.empty]
    · simp only [htr, if_false]
      split <;> rfl
  have hti : (processSingleAudioFile env cfg f).2.timersCreated = 0 := by
    unfold processSingleAudioFile
    rw [ht]
    by_cases htr : jsTrim t = ""
    · simp [htr, Trace.empty]
    · simp only [htr, if_false]
      split <;> rfl
  refine ⟨hpa, hti, processSingleAudioFile_transcribeCalls env cfg f, ?_, ?_⟩
  · intro htr
    unfold processSingleAudioFile
    rw [ht]
    simp [htr]
  · intro htr
    constructor
    · unfold processSingleAudioFile
      rw [ht]
      simp only [htr, if_false]
      split <;> rfl
    · rfl

theorem batchPerFileAmended_witness :
    envOk.transcribeAudio "/recs/a.mp3" = .ok (.valid "hello") ∧
    (processSingleAudioFile envOk cfgBase "/recs/a.mp3").2.processAudioCalls = 0 ∧
    (processSingleAudioFile envOk cfgBase "/recs/a.mp3").2.reviewCalls =
      [batchDelegConfig cfgBase "/recs/a.mp3" "hello"] ∧
    (batchDelegConfig cfgBase "/recs/a.mp3" "hello").review.bind (fun r => r.note) =
      some ("Audio Review from " ++ strBasename "/recs/a.mp3" ++ ":\n\n" ++
        jsTrim "hello") :=
  ⟨rfl, (batchPerFileAmended envOk cfgBase "/recs/a.mp3" "hello" rfl).1,
    ((batchPerFileAmended envOk cfgBase "/recs/a.mp3" "hello" rfl).2.2.2.2
      (by decide)).1,
    ((batchPerFileAmended envOk cfgBase "/recs/a.mp3" "hello" rfl).2.2.2.2
      (by decide)).2⟩

/-- Claim C9 counterexample: at a concrete input, a pre-existing field of
the downstream review options block outside the mapped set (`extraField`)
is not passed through to the delegated invocation — the rebuilt block drops
it. -/
theorem delegationDropsUnmappedReviewFields :
    cfgPreexisting.review.bind (fun r => r.extraField) = some "keep" ∧
    (audioReviewExecute envOk cfgPreexisting).2.reviewCalls.map
      (fun c => c.review.bind (fun r => r.extraField)) = [none] ∧
    (audioReviewExecute envOk cfgPreexisting).2.reviewCalls.length = 1 := by
  exact ⟨rfl, rfl, rfl⟩

/-- Claim C9 amended: the commit delegation spreads the previous commit
block, so its fields outside `direction` and all other config fields pass
through unchanged; the review delegation passes every top-level config
field through unchanged but rebuilds the review block from only the mapped
audioReview fields plus the note, dropping its other pre-existing fields. -/
theorem delegationFrameAmended (cfg : Config) (a : String) :
    (commitDelegConfig cfg a).dryRun = cfg.dryRun ∧
    (commitDelegConfig cfg a).debug = cfg.debug ∧
    (commitDelegConfig cfg a).outputDirectory = cfg.outputDirectory ∧
    (commitDelegConfig cfg a).audioCommit = cfg.audioCommit ∧
    (commitDelegConfig cfg a).audioReview = cfg.audioReview ∧
    (commitDelegConfig cfg a).review = cfg.review ∧
    (commitDelegConfig cfg a).extraTop = cfg.extraTop ∧
    (commitDelegConfig cfg a).commit.bind (fun c => c.extraField) =
      cfg.commit.bind (fun c => c.extraField) ∧
    (commitDelegConfig cfg a).commit.bind (fun c => c.direction) =
      some (jsOrOpt (some (jsTrim a)) (jsOrOpt (cfg.commit.bind (fun c => c.direction)) "")) ∧
    (reviewDelegConfig cfg a).dryRun = cfg.dryRun ∧
    (reviewDelegConfig cfg a).debug = cfg.debug ∧
    (reviewDelegConfig cfg a).outputDirectory = cfg.outputDirectory ∧
    (reviewDelegConfig cfg a).audioCommit = cfg.audioCommit ∧
    (reviewDelegConfig cfg a).audioReview = cfg.audioReview ∧
    (reviewDelegConfig cfg a).commit = cfg.commit ∧
    (reviewDelegConfig cfg a).extraTop = cfg.extraTop ∧
    (reviewDelegConfig cfg a).review = some (mappedReviewBlock cfg
      (jsOrOpt (some (jsTrim a)) (jsOrOpt (cfg.review.bind (fun r => r.note)) ""))) ∧
    (reviewDelegConfig cfg a).review.bind (fun r => r.extraField) = none := by
  exact ⟨rfl, rfl, rfl, rfl, rfl, rfl, rfl, rfl, rfl, rfl, rfl, rfl, rfl, rfl, rfl,
    rfl, rfl, rfl⟩

end CommandsAudio
